import Mathlib

set_option maxRecDepth 8000

/-!
Verification development for the IaC structure validator
(`scripts/validate_structure.py`).

The validator is embedded shallowly: a file tree is a list of
(relative path, content) pairs, file contents are manipulated as
`List Char`, and every Python regular expression used by the script is
translated into an explicit character-list matcher with the same
left-to-right, non-overlapping scanning semantics as `re.finditer` /
`re.search` / `re.findall`.
-/

/-- One outcome of one rule evaluation (mirrors the Python `ValidationResult`:
check name, pass flag, message, optional relative file path, optional 1-based
line number). -/
structure ValidationResult where
  check_name : String
  passed : Bool
  message : String
  file_path : String := ""
  line_number : Nat := 0
  deriving DecidableEq, Repr

/-- A directory tree: the files found under the root, as
(relative path, content) pairs, in discovery order. -/
abbrev FileTree := List (String × String)

/-- Python `\s` on ASCII input: space, tab, newline, carriage return,
vertical tab, form feed. -/
def isWs (c : Char) : Bool :=
  c = ' ' || c = '\t' || c = '\n' || c = '\r' || c = '\x0b' || c = '\x0c'

/-- Python `\w` on ASCII input: letters, digits, underscore. -/
def isWordChar (c : Char) : Bool :=
  c.isAlpha || c.isDigit || c = '_'

/-- ASCII `[A-Z]`, as used by the naming checks. -/
def isAsciiUpper (c : Char) : Bool :=
  'A' ≤ c && c ≤ 'Z'

/-- Lower-case a whole character list (ASCII, matching Python `str.lower`
on the validator's inputs). -/
def lowerL (cs : List Char) : List Char :=
  cs.map Char.toLower

/-- Python `needle in hay` substring test. -/
def containsSub (needle : List Char) : List Char → Bool
  | [] => needle.isEmpty
  | c :: cs => needle.isPrefixOf (c :: cs) || containsSub needle cs

/-- Strip an exact literal from the front, returning the rest. -/
def stripLit : List Char → List Char → Option (List Char)
  | [], cs => some cs
  | _ :: _, [] => none
  | p :: ps, c :: cs => if c = p then stripLit ps cs else none

/-- Strip a literal from the front, comparing case-insensitively
(Python `re.IGNORECASE`). -/
def stripLitCI : List Char → List Char → Option (List Char)
  | [], cs => some cs
  | _ :: _, [] => none
  | p :: ps, c :: cs => if c.toLower = p.toLower then stripLitCI ps cs else none

/-- Greedy `\s+`: at least one whitespace character; returns the consumed
whitespace and the rest. -/
def span1Ws (cs : List Char) : Option (List Char × List Char) :=
  let w := cs.takeWhile isWs
  if w.isEmpty then none else some (w, cs.dropWhile isWs)

/-- Greedy `\d+`: at least one digit; returns the digits and the rest. -/
def takeDigits1 (cs : List Char) : Option (List Char × List Char) :=
  let d := cs.takeWhile Char.isDigit
  if d.isEmpty then none else some (d, cs.dropWhile Char.isDigit)

/-- Split before the first occurrence of a character: returns the part
strictly before it and the part strictly after it (the lazy `.*?c`). -/
def breakAtChar (t : Char) : List Char → Option (List Char × List Char)
  | [] => none
  | c :: cs =>
    if c = t then some ([], cs)
    else
      match breakAtChar t cs with
      | some (a, b) => some (c :: a, b)
      | none => none

/-- Python `content.split('\n')`: every `'\n'` is a separator, a trailing
newline yields a final empty segment. -/
def splitNl : List Char → List (List Char)
  | [] => [[]]
  | c :: cs =>
    if c = '\n' then [] :: splitNl cs
    else
      match splitNl cs with
      | [] => [[c]]
      | l :: ls => (c :: l) :: ls

/-- `pathlib.Path.name`: the component after the last `'/'`. -/
def baseNameAux (cur : List Char) : List Char → List Char
  | [] => cur.reverse
  | c :: cs => if c = '/' then baseNameAux [] cs else baseNameAux (c :: cur) cs

/-- The base name of a relative path. -/
def baseName (p : List Char) : List Char := baseNameAux [] p

/-- Concatenation of the lists produced for each element (keeps the
per-element grouping used by the Python loops). -/
def listFlat (f : α → List β) : List α → List β
  | [] => []
  | a :: l => f a ++ listFlat f l

/-- First index at which `needle` occurs as a substring (Python
`str.find`, `none` for -1). -/
def firstIndexOfSub (needle : List Char) : List Char → Option Nat
  | [] => if needle.isEmpty then some 0 else none
  | c :: cs =>
    if needle.isPrefixOf (c :: cs) then some 0
    else (firstIndexOfSub needle cs).map (· + 1)

/-- Count occurrences of an element in a list. -/
def countOcc [DecidableEq α] (x : α) : List α → Nat
  | [] => 0
  | a :: l => (if a = x then 1 else 0) + countOcc x l

/-- `re.search` over a line or block for a matcher that only needs the
text at each start position: true iff some position matches. -/
def searchBy (m : List Char → Bool) : List Char → Bool
  | [] => m []
  | c :: cs => m (c :: cs) || searchBy m cs

/-- Non-overlapping left-to-right scan (`re.finditer`): at each position
try the step; on a match emit it and continue after the consumed text,
otherwise advance one character.  Fuel bounds the recursion and is always
instantiated with the length of the scanned text. -/
def scanAll (step : List Char → Option (α × List Char)) : Nat → List Char → List α
  | 0, _ => []
  | _ + 1, [] => []
  | fuel + 1, c :: cs =>
    match step (c :: cs) with
    | some (a, rest) => a :: scanAll step fuel rest
    | none => scanAll step fuel cs

/-- Like `scanAll`, but the step also sees the character preceding the
current position (needed for `\b` word boundaries); the matched text is
returned and used to update the preceding character. -/
def scanAllB (step : Option Char → List Char → Option (List Char × List Char)) :
    Nat → Option Char → List Char → List (List Char)
  | 0, _, _ => []
  | _ + 1, _, [] => []
  | fuel + 1, prev, c :: cs =>
    match step prev (c :: cs) with
    | some (mt, rest) => mt :: scanAllB step fuel (some (mt.getLastD c)) rest
    | none => scanAllB step fuel (some c) cs

/-- Beginning of file existence and discovery model. -/
def rootFileContent (tree : FileTree) (name : String) : Option String :=
  (tree.find? (fun f => f.1 == name)).map (·.2)

/-- `(self.path / name).exists()` for a root-level name. -/
def existsRootFile (tree : FileTree) (name : String) : Bool :=
  (rootFileContent tree name).isSome

/-- `self.path.glob("**/*.tf")`: every file whose path ends in `.tf`,
in discovery order. -/
def tfFiles (tree : FileTree) : FileTree :=
  tree.filter (fun f => ".tf".data.isSuffixOf f.1.data)

/-! ## Pattern matchers for the validator's regular expressions -/

/-- `\b` before a word character: start of text or a non-word predecessor. -/
def wordBoundary : Option Char → Bool
  | none => true
  | some c => !isWordChar c

/-- `\bKW\s*=\s*(\d+)` at the current position (used with `port` and
`disk_size_gb`); returns the matched text and the rest. -/
def matchKwNumAt (kw : List Char) (prev : Option Char) (cs : List Char) :
    Option (List Char × List Char) :=
  if wordBoundary prev then
    match stripLit kw cs with
    | none => none
    | some r1 =>
      let w1 := r1.takeWhile isWs
      match r1.dropWhile isWs with
      | '=' :: r2 =>
        let w2 := r2.takeWhile isWs
        match takeDigits1 (r2.dropWhile isWs) with
        | some (ds, rest) => some (kw ++ w1 ++ '=' :: (w2 ++ ds), rest)
        | none => none
      | _ => none
  else none

/-- `\bzone\s*=\s*"(\d+)"` at the current position. -/
def matchZoneAt (prev : Option Char) (cs : List Char) : Option (List Char × List Char) :=
  if wordBoundary prev then
    match stripLit "zone".data cs with
    | none => none
    | some r1 =>
      let w1 := r1.takeWhile isWs
      match r1.dropWhile isWs with
      | '=' :: r2 =>
        let w2 := r2.takeWhile isWs
        match r2.dropWhile isWs with
        | '"' :: r3 =>
          match takeDigits1 r3 with
          | some (ds, rest) =>
            match rest with
            | '"' :: rest2 =>
              some ("zone".data ++ w1 ++ '=' :: (w2 ++ '"' :: (ds ++ ['"'])), rest2)
            | _ => none
          | none => none
        | _ => none
      | _ => none
  else none

/-- The literal Azure wire-server address `168\.63\.129\.16`. -/
def azureIp : List Char := "168.63.129.16".data

/-- The literal-IP pattern (no word boundary in the source regex). -/
def matchIpAt (_prev : Option Char) (cs : List Char) : Option (List Char × List Char) :=
  match stripLit azureIp cs with
  | some rest => some (azureIp, rest)
  | none => none

/-- The magic-number pattern table of `check_magic_numbers`, in source
order, each with its human label. -/
def magicPatterns :
    List ((Option Char → List Char → Option (List Char × List Char)) × String) :=
  [(matchKwNumAt "port".data, "Port number"),
   (matchZoneAt, "Availability zone"),
   (matchIpAt, "Azure Wire Server IP"),
   (matchKwNumAt "disk_size_gb".data, "Disk size")]

/-- `line.strip().startswith('#')`. -/
def isCommentLine (line : List Char) : Bool :=
  match line.dropWhile isWs with
  | '#' :: _ => true
  | _ => false

/-- The constant-indirection token `local.`. -/
def localTok : List Char := "local.".data

/-- All magic-pattern matches on one line, pattern by pattern
(`re.finditer` for each pattern), as (label, matched text) pairs. -/
def magicMatchesLine (line : List Char) : List (String × List Char) :=
  listFlat (fun pd => (scanAllB pd.1 line.length none line).map (fun mt => (pd.2, mt)))
    magicPatterns

/-- The failing magic-number message. -/
def mkMagicMsg (desc : String) (mt : List Char) : String :=
  String.mk (desc.data ++ " hardcoded: ".data ++ mt ++ " - Should be in locals_constants.tf".data)

/-- Results `check_magic_numbers` emits for one line of one file. -/
def magicLineResults (rel : String) (i : Nat) (line : List Char) : List ValidationResult :=
  if isCommentLine line then []
  else
    (magicMatchesLine line).filterMap fun dm =>
      if containsSub localTok line then none
      else some ⟨"Magic Number", false, mkMagicMsg dm.1 dm.2, rel, i⟩

/-- Line-by-line traversal of one file with 1-based numbering. -/
def magicScan (rel : String) : Nat → List (List Char) → List ValidationResult
  | _, [] => []
  | i, l :: ls => magicLineResults rel i l ++ magicScan rel (i + 1) ls

/-- `check_magic_numbers`: every discovered file except
`locals_constants.tf`. -/
def checkMagicNumbers (tree : FileTree) : List ValidationResult :=
  listFlat (fun f =>
    if baseName f.1.data = "locals_constants.tf".data then []
    else magicScan f.1 1 (splitNl f.2.data)) (tfFiles tree)

/-! ## String-boolean anti-pattern -/

/-- Literal segments of `contains\(\s*\[\s*"yes"\s*,\s*"no"\s*\]`. -/
def yesNoLits : List (List Char) :=
  ["contains(".data, "[".data, "\"yes\"".data, ",".data, "\"no\"".data, "]".data]

/-- Literal segments of `contains\(\s*\[\s*"true"\s*,\s*"false"\s*\]`. -/
def trueFalseLits : List (List Char) :=
  ["contains(".data, "[".data, "\"true\"".data, ",".data, "\"false\"".data, "]".data]

/-- Match a sequence of literals separated by `\s*` at the current position. -/
def seqLitsWs : List (List Char) → List Char → Bool
  | [], _ => true
  | l :: ls, cs =>
    match stripLit l cs with
    | none => false
    | some r => seqLitsWs ls (r.dropWhile isWs)

/-- Per-line results of `check_string_booleans` for one file. -/
def strBoolScan (rel : String) : Nat → List (List Char) → List ValidationResult
  | _, [] => []
  | i, l :: ls =>
    (if searchBy (seqLitsWs yesNoLits) l then
      [⟨"String Boolean", false,
        "String boolean detected - Use type = bool instead of \"yes\"/\"no\"", rel, i⟩]
     else []) ++
    (if searchBy (seqLitsWs trueFalseLits) l then
      [⟨"String Boolean", false,
        "String boolean detected - Use type = bool instead of \"true\"/\"false\" strings", rel, i⟩]
     else []) ++
    strBoolScan rel (i + 1) ls

/-- `check_string_booleans` over the discovered files. -/
def checkStringBooleans (tree : FileTree) : List ValidationResult :=
  listFlat (fun f => strBoolScan f.1 1 (splitNl f.2.data)) (tfFiles tree)

/-! ## Naming conventions -/

/-- `variable\s+"([^"]+)"` at the current position: returns the captured
name and the rest after the closing quote. -/
def matchVarNameAt (cs : List Char) : Option (List Char × List Char) :=
  match stripLit "variable".data cs with
  | none => none
  | some r1 =>
    match span1Ws r1 with
    | none => none
    | some (_, r2) =>
      match r2 with
      | '"' :: r3 =>
        match breakAtChar '"' r3 with
        | some (nm, r4) => if nm.isEmpty then none else some (nm, r4)
        | none => none
      | _ => none

/-- `resource\s+"[^"]+"\s+"([^"]+)"` at the current position: returns the
captured resource name and the rest. -/
def matchResNameAt (cs : List Char) : Option (List Char × List Char) :=
  match stripLit "resource".data cs with
  | none => none
  | some r1 =>
    match span1Ws r1 with
    | none => none
    | some (_, r2) =>
      match r2 with
      | '"' :: r3 =>
        match breakAtChar '"' r3 with
        | some (ty, r4) =>
          if ty.isEmpty then none
          else
            match span1Ws r4 with
            | none => none
            | some (_, r5) =>
              match r5 with
              | '"' :: r6 =>
                match breakAtChar '"' r6 with
                | some (nm, r7) => if nm.isEmpty then none else some (nm, r7)
                | none => none
              | _ => none
        | none => none
      | _ => none

/-- `re.findall(r'variable\s+"([^"]+)"', content)`. -/
def findVarNamesOnly (content : List Char) : List (List Char) :=
  scanAll matchVarNameAt content.length content

/-- `re.findall(r'resource\s+"[^"]+"\s+"([^"]+)"', content)`. -/
def findResNames (content : List Char) : List (List Char) :=
  scanAll matchResNameAt content.length content

/-- Naming results for the declared variable names of one file. -/
def varNamingResults (rel : String) (names : List (List Char)) : List ValidationResult :=
  listFlat (fun nm =>
    (if nm.any isAsciiUpper then
      [⟨"Variable Naming", false,
        String.mk ("Variable \"".data ++ nm ++ '"' :: " not in snake_case".data), rel, 0⟩]
     else []) ++
    (if nm.length < 3 then
      [⟨"Variable Naming", false,
        String.mk ("Variable \"".data ++ nm ++ '"' :: " too short (< 3 chars)".data), rel, 0⟩]
     else [])) names

/-- Naming results for the declared resource names of one file. -/
def resNamingResults (rel : String) (names : List (List Char)) : List ValidationResult :=
  listFlat (fun nm =>
    if nm.any isAsciiUpper then
      [⟨"Resource Naming", false,
        String.mk ("Resource \"".data ++ nm ++ '"' :: " not in snake_case".data), rel, 0⟩]
    else []) names

/-- `check_naming_conventions`: variable names from files named
`variables.tf`, then resource names from every discovered file. -/
def checkNamingConventions (tree : FileTree) : List ValidationResult :=
  listFlat (fun f =>
    if baseName f.1.data = "variables.tf".data then
      varNamingResults f.1 (findVarNamesOnly f.2.data)
    else []) (tfFiles tree) ++
  listFlat (fun f => resNamingResults f.1 (findResNames f.2.data)) (tfFiles tree)

/-! ## Required files and documentation -/

/-- The required-file table of `check_file_structure`, in source order. -/
def requiredFiles : List (String × String) :=
  [("README.md", "Project documentation"),
   ("variables.tf", "Variable declarations"),
   ("outputs.tf", "Output definitions"),
   ("versions.tf", "Provider versions (or provider.tf)"),
   (".gitignore", "Git exclusions")]

/-- One required-file presence result (with the `provider.tf` alternate
for `versions.tf`). -/
def requiredFileResult (tree : FileTree) (fd : String × String) : ValidationResult :=
  let ex0 := existsRootFile tree fd.1
  let ex := if fd.1 == "versions.tf" && !ex0 then existsRootFile tree "provider.tf" else ex0
  ⟨"Required File: " ++ fd.1, ex, fd.2 ++ (if ex then " found" else " MISSING"), "", 0⟩

/-- `check_file_structure`: the five required files plus the constants file. -/
def checkFileStructure (tree : FileTree) : List ValidationResult :=
  requiredFiles.map (requiredFileResult tree) ++
  [⟨"Constants File", existsRootFile tree "locals_constants.tf",
    if existsRootFile tree "locals_constants.tf" then "locals_constants.tf found"
    else "locals_constants.tf MISSING - magic numbers may be present", "", 0⟩]

/-- The README section keywords of `check_documentation`, in source order. -/
def requiredSections : List (String × String) :=
  [("prerequisites", "Prerequisites section"),
   ("quick start", "Quick Start or Getting Started section"),
   ("configuration", "Configuration section")]

/-- `check_documentation`: one failing result and stop when `README.md`
is absent; otherwise the three section results and the example-file result. -/
def checkDocumentation (tree : FileTree) : List ValidationResult :=
  match rootFileContent tree "README.md" with
  | none => [⟨"README.md", false, "README.md not found", "", 0⟩]
  | some c =>
    (requiredSections.map fun kd =>
      let found := containsSub kd.1.data (lowerL c.data)
      ⟨"README: " ++ kd.2, found, kd.2 ++ (if found then " found" else " MISSING in README.md"),
       "", 0⟩) ++
    [⟨"Example Configuration", existsRootFile tree "terraform.tfvars.example",
      "terraform.tfvars.example " ++
        (if existsRootFile tree "terraform.tfvars.example" then "found" else "MISSING"), "", 0⟩]

/-! ## Security standards -/

/-- `(password|secret|key)\s*=\s*"[^$]` for one keyword alternative at the
current position (case-insensitive). -/
def matchSecretKwAt (kw : List Char) (cs : List Char) : Bool :=
  match stripLitCI kw cs with
  | none => false
  | some r =>
    match r.dropWhile isWs with
    | '=' :: r2 =>
      match r2.dropWhile isWs with
      | '"' :: c :: _ => decide (c ≠ '$')
      | _ => false
    | _ => false

/-- The full hardcoded-secret pattern at the current position. -/
def matchSecretAt (cs : List Char) : Bool :=
  matchSecretKwAt "password".data cs || matchSecretKwAt "secret".data cs ||
  matchSecretKwAt "key".data cs

/-- A line is flagged as a hardcoded secret when the pattern matches and
the line references neither `var.` nor `data.`. -/
def lineHasHardcodedSecret (line : List Char) : Bool :=
  searchBy matchSecretAt line &&
  !(containsSub "var.".data line || containsSub "data.".data line)

/-- `content[max(0, content.find(line) - 200):content.find(line)]`, the
look-back window used by the wildcard-source check (the `none` branch
mirrors Python slicing when `find` returns -1). -/
def wildcardWindow (content line : List Char) : List Char :=
  match firstIndexOfSub line content with
  | some p => (content.take p).drop (p - 200)
  | none => content.take (content.length - 1)

/-- The wildcard-source condition for one line of one file. -/
def wildcardCond (content line : List Char) : Bool :=
  containsSub "source_address_prefix".data line && containsSub "\"*\"".data line &&
  containsSub "allow".data (lowerL (wildcardWindow content line))

/-- One hardcoded-secret failing result. -/
def secretRes (rel : String) (i : Nat) : ValidationResult :=
  ⟨"Hardcoded Secret", false,
   "Possible hardcoded secret detected - Use variables or Key Vault", rel, i⟩

/-- One wildcard-source failing result. -/
def wildRes (rel : String) (i : Nat) : ValidationResult :=
  ⟨"Overly Permissive Security Rule", false,
   "Security rule allows traffic from anywhere (*) - Use specific CIDR blocks", rel, i⟩

/-- Results the per-line security scan emits for one line. -/
def securityLineResults (rel : String) (content : List Char) (i : Nat) (line : List Char) :
    List ValidationResult :=
  (if lineHasHardcodedSecret line then [secretRes rel i] else []) ++
  (if wildcardCond content line then [wildRes rel i] else [])

/-- Line-by-line security scan of one file with 1-based numbering. -/
def secScan (rel : String) (content : List Char) : Nat → List (List Char) → List ValidationResult
  | _, [] => []
  | i, l :: ls => securityLineResults rel content i l ++ secScan rel content (i + 1) ls

/-- The per-file part of `check_security_standards`. -/
def checkSecurityPerFile (rel : String) (content : List Char) : List ValidationResult :=
  secScan rel content 1 (splitNl content)

/-! ## Variable blocks: sensitive variables and validation presence -/

/-- The keyword literal of the variable-block patterns. -/
def varKw : List Char := "variable".data

/-- The closing-brace character (written escaped throughout). -/
def closeBr : Char := '\x7d'

/-- `variable\s+"([^"]*)".*?\x7d` at the current position: the captured
name and the rest of the text after the first closing brace.  `ci` selects
`re.IGNORECASE` matching of the keyword (the name class `[^"]` is
case-neutral). -/
def matchVarDeclAt (ci : Bool) (cs : List Char) : Option (List Char × List Char) :=
  match (if ci then stripLitCI else stripLit) varKw cs with
  | none => none
  | some r1 =>
    match span1Ws r1 with
    | none => none
    | some (_, r2) =>
      match r2 with
      | '"' :: r3 =>
        match breakAtChar '"' r3 with
        | none => none
        | some (nm, r4) =>
          match breakAtChar closeBr r4 with
          | none => none
          | some (_, r5) => some (nm, r5)
      | _ => none

/-- `re.findall(r'variable\s+"([^"]+)".*?\x7d', content, re.DOTALL)`:
the declared variable names, in order. -/
def findVarNames (content : List Char) : List (List Char) :=
  scanAll (fun cs =>
    match matchVarDeclAt false cs with
    | some (nm, rest) => if nm.isEmpty then none else some (nm, rest)
    | none => none) content.length content

/-- Case-insensitive containment of `password`, `secret` or `key` in a
variable name (the `[^"]*(?:password|secret|key)[^"]*` class). -/
def sensName (nm : List Char) : Bool :=
  containsSub "password".data (lowerL nm) || containsSub "secret".data (lowerL nm) ||
  containsSub "key".data (lowerL nm)

/-- `re.findall(r'variable\s+"([^"]*(?:password|secret|key)[^"]*)".*?\x7d',
content, re.DOTALL | re.IGNORECASE)`: the sensitive variable names. -/
def findSensitiveNames (content : List Char) : List (List Char) :=
  scanAll (fun cs =>
    match matchVarDeclAt true cs with
    | some (nm, rest) => if sensName nm then some (nm, rest) else none
    | none => none) content.length content

/-- A character that stands for itself inside a Python regular
expression (no metacharacter). -/
def regexPlainChar (c : Char) : Bool :=
  !(c = '.' || c = '^' || c = '$' || c = '*' || c = '+' || c = '?' || c = '(' ||
    c = ')' || c = '[' || c = ']' || c = '\x7b' || c = '\x7d' || c = '\\' || c = '|')

/-- A captured variable name whose unescaped interpolation into the
per-name search pattern still matches it literally. -/
def regexPlainName (nm : List Char) : Bool := nm.all regexPlainChar

/-- `re.search(rf'variable\s+"NAME".*?\x7d', content, re.DOTALL)` at one
position: keyword, whitespace, the quoted interpolated name including its
closing quote, then lazily up to the first closing brace; returns the
matched block text.  The source interpolates the captured name into the
pattern unescaped; this model matches it literally, which coincides with
the regex semantics whenever the name contains no regex metacharacter
(`regexPlainName`), the domain the block theorems assume. -/
def matchVarBlockForAt (nm : List Char) (cs : List Char) : Option (List Char) :=
  match stripLit varKw cs with
  | none => none
  | some r1 =>
    let w := r1.takeWhile isWs
    if w.isEmpty then none
    else
      match r1.dropWhile isWs with
      | '"' :: r3 =>
        match stripLit nm r3 with
        | none => none
        | some r4 =>
          match r4 with
          | '"' :: r5 =>
            match breakAtChar closeBr r5 with
            | none => none
            | some (mid, _) =>
              some (varKw ++ w ++ '"' :: (nm ++ '"' :: (mid ++ [closeBr])))
          | _ => none
      | _ => none

/-- `re.search` over the whole content for an `Option`-valued matcher:
the first match, scanning left to right. -/
def searchFirst (m : List Char → Option α) : Nat → List Char → Option α
  | 0, _ => none
  | _ + 1, [] => none
  | fuel + 1, c :: cs =>
    match m (c :: cs) with
    | some a => some a
    | none => searchFirst m fuel cs

/-- The block text `re.search` finds for one variable name. -/
def searchVarFor (nm : List Char) (content : List Char) : Option (List Char) :=
  searchFirst (matchVarBlockForAt nm) content.length content

/-- `'sensitive' in var_block and 'true' in var_block`. -/
def sensCond (blk : List Char) : Bool :=
  containsSub "sensitive".data blk && containsSub "true".data blk

/-- One Sensitive Variable result. -/
def mkSensRes (nm : List Char) (b : Bool) : ValidationResult :=
  ⟨"Sensitive Variable", b,
   String.mk ("Variable \"".data ++ nm ++ '"' :: ' ' ::
     ((if b then "is".data else "NOT".data) ++ " marked sensitive".data)), "", 0⟩

/-- The result (if any) the sensitive-variable loop emits for one name. -/
def emitSens (content : List Char) (nm : List Char) : Option ValidationResult :=
  (searchVarFor nm content).map (fun blk => mkSensRes nm (sensCond blk))

/-- The Sensitive Variable results for the content of `variables.tf`. -/
def sensitiveVarResults (content : List Char) : List ValidationResult :=
  (findSensitiveNames content).filterMap (emitSens content)

/-- The sensitive-variable sub-check of `check_security_standards`
(silently empty when `variables.tf` is absent). -/
def sensitiveVariableCheck (tree : FileTree) : List ValidationResult :=
  match rootFileContent tree "variables.tf" with
  | none => []
  | some c => sensitiveVarResults c.data

/-- `check_security_standards`: per-file secret and wildcard scans, then
the sensitive-variable sub-check. -/
def checkSecurityStandards (tree : FileTree) : List ValidationResult :=
  listFlat (fun f => checkSecurityPerFile f.1 f.2.data) (tfFiles tree) ++
  sensitiveVariableCheck tree

/-- `re.search(r'default\s*=', var_block)` at one position. -/
def matchDefaultEqAt (cs : List Char) : Bool :=
  match stripLit "default".data cs with
  | none => false
  | some r =>
    match r.dropWhile isWs with
    | '=' :: _ => true
    | _ => false

/-- Whether a variable block matches `default\s*=` anywhere. -/
def hasDefaultAssign (blk : List Char) : Bool := searchBy matchDefaultEqAt blk

/-- One Variable Validation failing result. -/
def mkVVRes (nm : List Char) : ValidationResult :=
  ⟨"Variable Validation", false,
   String.mk ("Required variable \"".data ++ nm ++ '"' :: " lacks validation block".data),
   "variables.tf", 0⟩

/-- The result (if any) `check_variable_validation` emits for one name. -/
def emitVV (content : List Char) (nm : List Char) : Option ValidationResult :=
  match searchVarFor nm content with
  | none => none
  | some blk =>
    if !hasDefaultAssign blk && !containsSub "validation".data blk then some (mkVVRes nm)
    else none

/-- The Variable Validation results for the content of `variables.tf`. -/
def variableValidationResults (content : List Char) : List ValidationResult :=
  (findVarNames content).filterMap (emitVV content)

/-- `check_variable_validation` (silently empty when `variables.tf` is
absent). -/
def checkVariableValidation (tree : FileTree) : List ValidationResult :=
  match rootFileContent tree "variables.tf" with
  | none => []
  | some c => variableValidationResults c.data

/-! ## Output organization -/

/-- `\s*output\s+"` right after a MULTILINE `^` anchor (Python `\s` also
spans newlines). -/
def matchOutputAt (cs : List Char) : Bool :=
  match stripLit "output".data (cs.dropWhile isWs) with
  | none => false
  | some r =>
    match span1Ws r with
    | none => false
    | some (_, r2) =>
      match r2 with
      | '"' :: _ => true
      | _ => false

/-- `re.search(r'^\s*output\s+"', content, re.MULTILINE)`: try the anchor
at the start of the text and after every newline. -/
def topOutScan : Bool → List Char → Bool
  | _, [] => false
  | anchor, c :: cs => (anchor && matchOutputAt (c :: cs)) || topOutScan (c = '\n') cs

/-- Whether a file declares a top-level output. -/
def hasTopLevelOutput (content : List Char) : Bool := topOutScan true content

/-- One stray-output failing result (message shows the base name, the
path field the relative path). -/
def mkStrayRes (p : String) : ValidationResult :=
  ⟨"Output Organization", false,
   String.mk ("Output found in ".data ++ baseName p.data ++ " - should be in outputs.tf".data),
   p, 0⟩

/-- `check_output_organization`: one failing result and stop when
`outputs.tf` is absent; otherwise one failing result per other
discovered file that declares a top-level output. -/
def checkOutputOrganization (tree : FileTree) : List ValidationResult :=
  if existsRootFile tree "outputs.tf" then
    (tfFiles tree).filterMap fun f =>
      if baseName f.1.data = "outputs.tf".data then none
      else if hasTopLevelOutput f.2.data then some (mkStrayRes f.1) else none
  else [⟨"Output Organization", false, "outputs.tf not found - outputs may be scattered", "", 0⟩]

/-! ## Driver -/

/-- `run_all_checks`: discovery, the empty-discovery short circuit, the
eight rule families in source order; returns (all passed, results).  The
`strict` flag is stored by the validator but never consulted, exactly as
in the source. -/
def runAllChecks (path : String) (strict : Bool) (tree : FileTree) :
    Bool × List ValidationResult :=
  let tfs := tfFiles tree
  if tfs.isEmpty then
    (false, [⟨"File Discovery", false, "No Terraform files found in " ++ path, "", 0⟩])
  else
    let rs := checkFileStructure tree ++ checkMagicNumbers tree ++ checkStringBooleans tree ++
      checkNamingConventions tree ++ checkDocumentation tree ++ checkSecurityStandards tree ++
      checkVariableValidation tree ++ checkOutputOrganization tree
    (rs.all (·.passed), rs)

/-- `main`: exit 2 when the root path does not exist, otherwise 0 or 1
according to the overall outcome. -/
def mainExit (pathExists : Bool) (path : String) (strict : Bool) (tree : FileTree) : Nat :=
  if pathExists then (if (runAllChecks path strict tree).1 then 0 else 1) else 2

/-! ## Spec-side readings used to compare code against the specification
(each follows the specification's words, not the source). -/

/-- Following the spec's words: `sensitive`, optional whitespace, `=`,
optional whitespace, `true` at the current position. -/
def trueMarkerAt (cs : List Char) : Bool :=
  match stripLit "sensitive".data cs with
  | none => false
  | some r =>
    match r.dropWhile isWs with
    | '=' :: r2 => "true".data.isPrefixOf (r2.dropWhile isWs)
    | _ => false

/-- Following the spec's words: the declaration block contains a
true-valued sensitivity marker. -/
def hasTrueSensitiveMarker (blk : List Char) : Bool := searchBy trueMarkerAt blk

/-- Following the spec's words: the 0-based start position of the 1-based
line `i` of a content. -/
def specLineStart (content : List Char) (i : Nat) : Nat :=
  ((splitNl content).take (i - 1)).foldl (fun a l => a + l.length + 1) 0

/-- Following the spec's words: the bounded look-back window of at most
200 characters immediately preceding line `i` itself. -/
def specWindowBeforeLine (content : List Char) (i : Nat) : List Char :=
  (content.take (specLineStart content i)).drop (specLineStart content i - 200)

/-- Following the spec's words: a line that is a top-level output
declaration. -/
def outputDeclLine (l : List Char) : Bool :=
  match stripLit "output".data (l.dropWhile isWs) with
  | none => false
  | some r =>
    match span1Ws r with
    | none => false
    | some (_, r2) =>
      match r2 with
      | '"' :: _ => true
      | _ => false

/-- Following the spec's words: the number of stray top-level output
declarations found outside the dedicated outputs file. -/
def specStrayOutputDeclCount (tree : FileTree) : Nat :=
  ((tfFiles tree).filter (fun f => !decide (baseName f.1.data = "outputs.tf".data))).foldl
    (fun a f => a + ((splitNl f.2.data).filter outputDeclLine).length) 0

/-! ## Concrete scenario inputs -/

/-- A discovered file other than `outputs.tf` containing a stray
top-level output declaration. -/
def strayFileCond (f : String × String) : Bool :=
  !decide (baseName f.1.data = "outputs.tf".data) && hasTopLevelOutput f.2.data

/-- Recognize the Sensitive Variable result for one variable name. -/
def isSensResultFor (nm : List Char) (r : ValidationResult) : Bool :=
  decide (r = mkSensRes nm true) || decide (r = mkSensRes nm false)

/-- An otherwise-compliant tree: every rule passes. -/
def treeDoc : FileTree :=
  [("README.md", "Prerequisites\nQuick Start\nConfiguration\n"),
   ("variables.tf", "variable \"region\" \x7b\n  default = \"eu\"\n\x7d\n"),
   ("outputs.tf", "output \"id\" \x7b\n  value = var.region\n\x7d\n"),
   ("versions.tf", "terraform \x7b\n  required_version = \"1.0\"\n\x7d\n"),
   (".gitignore", "*.tfstate\n"),
   ("locals_constants.tf", "locals \x7b\n\x7d\n"),
   ("terraform.tfvars.example", "region = \"eu\"\n")]

/-- The same tree with the documentation file removed. -/
def treeDocNoReadme : FileTree :=
  [("variables.tf", "variable \"region\" \x7b\n  default = \"eu\"\n\x7d\n"),
   ("outputs.tf", "output \"id\" \x7b\n  value = var.region\n\x7d\n"),
   ("versions.tf", "terraform \x7b\n  required_version = \"1.0\"\n\x7d\n"),
   (".gitignore", "*.tfstate\n"),
   ("locals_constants.tf", "locals \x7b\n\x7d\n"),
   ("terraform.tfvars.example", "region = \"eu\"\n")]

/-- A tree whose `variables.tf` declares `db_password` without a
sensitivity marker. -/
def treeSens1 : FileTree :=
  [("variables.tf", "variable \"db_password\" \x7b\n  default = \"pw\"\n\x7d\n")]

/-- The same tree after adding the `sensitive = true` marker line. -/
def treeSens2 : FileTree :=
  [("variables.tf",
    "variable \"db_password\" \x7b\n  sensitive = true\n  default = \"pw\"\n\x7d\n")]

/-- `variables.tf` content whose `db_password` block has a false-valued
sensitivity marker and an unrelated `true` (a `default`): the lexical
check passes it although no true-valued marker is present. -/
def sensCexContent : String :=
  "variable \"db_password\" \x7b\n  sensitive = false\n  default = true\n\x7d\n"

/-- A populated outputs file plus one other file with exactly one stray
top-level output declaration. -/
def treeOut1 : FileTree :=
  [("outputs.tf", "output \"primary\" \x7b\n  value = var.a\n\x7d\n"),
   ("main.tf", "resource \"kind\" \"app\" \x7b\n\x7d\noutput \"extra\" \x7b\n  value = var.b\n\x7d\n")]

/-- The same tree with the stray declaration removed. -/
def treeOut2 : FileTree :=
  [("outputs.tf", "output \"primary\" \x7b\n  value = var.a\n\x7d\n"),
   ("main.tf", "resource \"kind\" \"app\" \x7b\n\x7d\n")]

/-- A populated outputs file plus one other file with two stray top-level
output declarations. -/
def treeOut3 : FileTree :=
  [("outputs.tf", "output \"primary\" \x7b\n  value = var.a\n\x7d\n"),
   ("main.tf", "output \"a\" \x7b\n\x7d\noutput \"b\" \x7b\n\x7d\n")]

/-- A 210-character spacer with no `allow` occurrence. -/
def fillerX : String := String.mk (List.replicate 210 'x')

/-- A file whose wildcard line text occurs twice: the first occurrence is
preceded by `allow`, the second is more than 200 characters away from it. -/
def wildCexContent : String :=
  "allow\nsource_address_prefix = \"*\"\n" ++ fillerX ++ "\nsource_address_prefix = \"*\""

/-- An explicit deny-all rule file: the wildcard line's look-back window
contains no `allow`. -/
def denyContent : String :=
  "resource \"azurerm_network_security_rule\" \"deny_all\" \x7b\n  access = \"Deny\"\n  source_address_prefix = \"*\"\n\x7d\n"

/-- `variables.tf` content with one required variable lacking validation
and one defaulted variable. -/
def vvWitnessContent : String :=
  "variable \"host\" \x7b\n  type = string\n\x7d\nvariable \"cnt\" \x7b\n  default = 3\n\x7d\n"

/-- A tree with Terraform files but no `variables.tf`. -/
def treeNoVars : FileTree :=
  [("main.tf", "resource \"kind\" \"app\" \x7b\n\x7d\n")]

/-- A tree that exists but contains no Terraform files. -/
def treeNoTf : FileTree :=
  [("README.md", "hello\n")]

/-! ## Helper lemmas -/

/-- Splitting at the first occurrence never keeps the split character. -/
lemma breakAtChar_not_mem {t : Char} :
    ∀ {cs a b : List Char}, breakAtChar t cs = some (a, b) → t ∉ a := by
  intro cs
  induction cs with
  | nil => intro a b h; simp [breakAtChar] at h
  | cons c cs ih =>
    intro a b h
    by_cases hc : c = t
    · simp only [breakAtChar, if_pos hc, Option.some.injEq, Prod.mk.injEq] at h
      obtain ⟨h1, h2⟩ := h
      subst h1
      simp
    · simp only [breakAtChar, if_neg hc] at h
      cases hrec : breakAtChar t cs with
      | none => rw [hrec] at h; simp at h
      | some ab =>
        rw [hrec] at h
        cases ab with
        | mk a' b' =>
          simp only [Option.some.injEq, Prod.mk.injEq] at h
          obtain ⟨h1, h2⟩ := h
          subst h1
          intro hm
          rcases List.mem_cons.mp hm with h1 | h1
          · exact hc h1.symm
          · exact ih hrec h1

/-- Every element produced by a `scanAll` run satisfies any property its
step guarantees. -/
lemma scanAll_mem {step : List Char → Option (α × List Char)} {P : α → Prop}
    (hstep : ∀ cs a rest, step cs = some (a, rest) → P a) :
    ∀ (fuel : Nat) (cs : List Char), ∀ a ∈ scanAll step fuel cs, P a := by
  intro fuel
  induction fuel with
  | zero => intro cs a ha; simp [scanAll] at ha
  | succ n ih =>
    intro cs a ha
    cases cs with
    | nil => simp [scanAll] at ha
    | cons c cs' =>
      simp only [scanAll] at ha
      cases hs : step (c :: cs') with
      | none => rw [hs] at ha; exact ih cs' a ha
      | some pr =>
        rw [hs] at ha
        rcases List.mem_cons.mp ha with h1 | h1
        · exact h1 ▸ hstep _ _ _ hs
        · exact ih pr.2 a h1


/-- The name captured by the variable-block pattern contains no quote. -/
lemma matchVarDeclAt_quote_free {ci : Bool} {cs nm rest : List Char}
    (h : matchVarDeclAt ci cs = some (nm, rest)) : '"' ∉ nm := by
  unfold matchVarDeclAt at h
  split at h
  · simp at h
  · split at h
    · simp at h
    · split at h
      · rename_i r3 heq
        split at h
        · simp at h
        · rename_i ab hbr
          split at h
          · simp at h
          · simp only [Option.some.injEq, Prod.mk.injEq] at h
            obtain ⟨h1, h2⟩ := h
            subst h1
            exact breakAtChar_not_mem hbr
      · simp at h

/-- Every name `findVarNames` returns is quote-free. -/
lemma findVarNames_quote_free {content : List Char} :
    ∀ nm ∈ findVarNames content, '"' ∉ nm := by
  intro nm hm
  refine @scanAll_mem _ _ (fun nm => '"' ∉ nm) ?_ content.length content nm hm
  intro cs a rest h
  cases hd : matchVarDeclAt false cs with
  | none => rw [hd] at h; simp at h
  | some pr =>
    rw [hd] at h
    cases pr with
    | mk nm' rest' =>
      by_cases he : nm'.isEmpty
      · simp [he] at h
      · simp only [he, Bool.false_eq_true, if_false, Option.some.injEq, Prod.mk.injEq] at h
        exact h.1 ▸ matchVarDeclAt_quote_free hd

/-- Every name `findSensitiveNames` returns is quote-free. -/
lemma findSensitiveNames_quote_free {content : List Char} :
    ∀ nm ∈ findSensitiveNames content, '"' ∉ nm := by
  intro nm hm
  refine @scanAll_mem _ _ (fun nm => '"' ∉ nm) ?_ content.length content nm hm
  intro cs a rest h
  cases hd : matchVarDeclAt true cs with
  | none => rw [hd] at h; simp at h
  | some pr =>
    rw [hd] at h
    cases pr with
    | mk nm' rest' =>
      by_cases hs : sensName nm'
      · simp only [hs, if_true, Option.some.injEq, Prod.mk.injEq] at h
        exact h.1 ▸ matchVarDeclAt_quote_free hd
      · simp [hs] at h

/-- Two occurrence-free splittings at the same character agree. -/
lemma append_cons_inj {c : Char} :
    ∀ {a b x y : List Char}, c ∉ a → c ∉ b → a ++ c :: x = b ++ c :: y →
      a = b ∧ x = y := by
  intro a
  induction a with
  | nil =>
    intro b x y _ hb h
    cases b with
    | nil => simpa using h
    | cons b' bs =>
      simp only [List.nil_append, List.cons_append, List.cons.injEq] at h
      exact absurd (h.1 ▸ List.mem_cons_self b' bs) (h.1 ▸ hb)
  | cons a' as ih =>
    intro b x y ha hb h
    cases b with
    | nil =>
      simp only [List.cons_append, List.nil_append, List.cons.injEq] at h
      exact absurd (h.1 ▸ List.mem_cons_self a' as) (h.1 ▸ ha)
    | cons b' bs =>
      simp only [List.cons_append, List.cons.injEq] at h
      have ha' : c ∉ as := fun hmm => ha (List.mem_cons_of_mem a' hmm)
      have hb' : c ∉ bs := fun hmm => hb (List.mem_cons_of_mem b' hmm)
      have := ih ha' hb' h.2
      exact ⟨by rw [h.1, this.1], this.2⟩

/-- A positive occurrence count implies membership. -/
lemma countOcc_pos_mem [DecidableEq α] {x : α} :
    ∀ {l : List α}, countOcc x l ≠ 0 → x ∈ l := by
  intro l
  induction l with
  | nil => intro h; exact absurd rfl h
  | cons a l ih =>
    intro h
    by_cases hax : a = x
    · exact hax ▸ List.mem_cons_self a l
    · have : countOcc x l ≠ 0 := by simpa [countOcc, hax] using h
      exact List.mem_cons_of_mem a (ih this)

/-- The name can be recovered from a Sensitive Variable result. -/
lemma mkSensRes_name_eq {nm nm' : List Char} {b b' : Bool}
    (hnm : '"' ∉ nm) (hnm' : '"' ∉ nm')
    (h : mkSensRes nm b = mkSensRes nm' b') : nm = nm' := by
  have hmsg := congrArg ValidationResult.message h
  simp only [mkSensRes] at hmsg
  injection hmsg with hd
  rw [List.append_assoc, List.append_assoc] at hd
  have hc := List.append_cancel_left hd
  exact (append_cons_inj hnm hnm' hc).1

/-- A result built for a name is recognized for that name. -/
lemma isSensResultFor_self (nm : List Char) (b : Bool) :
    isSensResultFor nm (mkSensRes nm b) = true := by
  cases b <;> simp [isSensResultFor]

/-- A result built for a different quote-free name is not recognized. -/
lemma isSensResultFor_other {nm nm' : List Char} (hnm : '"' ∉ nm) (hnm' : '"' ∉ nm')
    (hne : nm' ≠ nm) (b : Bool) : isSensResultFor nm (mkSensRes nm' b) = false := by
  simp only [isSensResultFor, Bool.or_eq_false_iff, decide_eq_false_iff_not]
  exact ⟨fun h => hne (mkSensRes_name_eq hnm' hnm h),
         fun h => hne (mkSensRes_name_eq hnm' hnm h)⟩

/-- Any emitted sensitive-variable result has the canonical shape. -/
lemma emitSens_shape {content n : List Char} {r : ValidationResult}
    (h : emitSens content n = some r) :
    ∃ blk, searchVarFor n content = some blk ∧ r = mkSensRes n (sensCond blk) := by
  unfold emitSens at h
  cases hsv : searchVarFor n content with
  | none => rw [hsv] at h; simp at h
  | some blk =>
    rw [hsv] at h
    simp at h
    exact ⟨blk, rfl, h.symm⟩

/-- No result for `nm` arises from a name list without `nm`. -/
lemma filter_sens_zero {content nm : List Char} (hqnm : '"' ∉ nm) :
    ∀ ns : List (List Char), (∀ n ∈ ns, '"' ∉ n) → countOcc nm ns = 0 →
      (ns.filterMap (emitSens content)).filter (isSensResultFor nm) = [] := by
  intro ns
  induction ns with
  | nil => intro _ _; rfl
  | cons n ns ih =>
    intro hq hc
    have hne : n ≠ nm := by
      intro he
      simp [countOcc, he] at hc
    have hc' : countOcc nm ns = 0 := by simpa [countOcc, hne] using hc
    have hq' : ∀ m ∈ ns, '"' ∉ m := fun m hm => hq m (List.mem_cons_of_mem n hm)
    cases he : emitSens content n with
    | none =>
      simp only [List.filterMap_cons, he]
      exact ih hq' hc'
    | some r =>
      obtain ⟨blk, hblk, hrr⟩ := emitSens_shape he
      have hr : isSensResultFor nm r = false := by
        rw [hrr]
        exact isSensResultFor_other hqnm (hq n (List.mem_cons_self n ns)) hne _
      simp only [List.filterMap_cons, he, List.filter_cons, hr, Bool.false_eq_true, if_false]
      exact ih hq' hc'

/-- Exactly one result for `nm` arises from a name list containing `nm`
exactly once. -/
lemma filter_sens_one {content nm blk : List Char} (hqnm : '"' ∉ nm)
    (hs : searchVarFor nm content = some blk) :
    ∀ ns : List (List Char), (∀ n ∈ ns, '"' ∉ n) → countOcc nm ns = 1 →
      (ns.filterMap (emitSens content)).filter (isSensResultFor nm) =
        [mkSensRes nm (sensCond blk)] := by
  intro ns
  induction ns with
  | nil => intro _ hc; simp [countOcc] at hc
  | cons n ns ih =>
    intro hq hc
    have hq' : ∀ m ∈ ns, '"' ∉ m := fun m hm => hq m (List.mem_cons_of_mem n hm)
    by_cases he : n = nm
    · subst he
      have hc' : countOcc n ns = 0 := by simpa [countOcc] using hc
      have hem : emitSens content n = some (mkSensRes n (sensCond blk)) := by
        unfold emitSens
        rw [hs]
        rfl
      simp only [List.filterMap_cons, hem, List.filter_cons, isSensResultFor_self, if_true]
      rw [filter_sens_zero hqnm ns hq' hc']
    · have hc' : countOcc nm ns = 1 := by simpa [countOcc, he] using hc
      cases hee : emitSens content n with
      | none =>
        simp only [List.filterMap_cons, hee]
        exact ih hq' hc'
      | some r =>
        obtain ⟨blk', hblk', hrr⟩ := emitSens_shape hee
        have hr : isSensResultFor nm r = false := by
          rw [hrr]
          exact isSensResultFor_other hqnm (hq n (List.mem_cons_self n ns)) he _
        simp only [List.filterMap_cons, hee, List.filter_cons, hr, Bool.false_eq_true, if_false]
        exact ih hq' hc'

/-- The name can be recovered from a Variable Validation result. -/
lemma mkVVRes_name_eq {nm nm' : List Char}
    (hnm : '"' ∉ nm) (hnm' : '"' ∉ nm')
    (h : mkVVRes nm = mkVVRes nm') : nm = nm' := by
  have hmsg := congrArg ValidationResult.message h
  simp only [mkVVRes] at hmsg
  injection hmsg with hd
  rw [List.append_assoc, List.append_assoc] at hd
  have hc := List.append_cancel_left hd
  exact (append_cons_inj hnm hnm' hc).1

/-- Any emitted variable-validation result has the canonical shape. -/
lemma emitVV_shape {content n : List Char} {r : ValidationResult}
    (h : emitVV content n = some r) :
    ∃ blk, searchVarFor n content = some blk ∧ hasDefaultAssign blk = false ∧
      containsSub "validation".data blk = false ∧ r = mkVVRes n := by
  unfold emitVV at h
  cases hsv : searchVarFor n content with
  | none => rw [hsv] at h; simp at h
  | some blk =>
    rw [hsv] at h
    by_cases hcond : (!hasDefaultAssign blk && !containsSub "validation".data blk) = true
    · simp only [hcond, if_true, Option.some.injEq] at h
      rw [Bool.and_eq_true, Bool.not_eq_true', Bool.not_eq_true'] at hcond
      exact ⟨blk, rfl, hcond.1, hcond.2, h.symm⟩
    · simp [hcond] at h

/-- When the searched block has a default, no Variable Validation result
for that name is ever emitted. -/
lemma vv_not_mem {content nm blk : List Char}
    (hq : ∀ n ∈ findVarNames content, '"' ∉ n)
    (hnm : '"' ∉ nm)
    (hs : searchVarFor nm content = some blk)
    (hd : hasDefaultAssign blk = true) :
    mkVVRes nm ∉ variableValidationResults content := by
  intro hmem
  unfold variableValidationResults at hmem
  obtain ⟨n, hn, he⟩ := List.mem_filterMap.mp hmem
  obtain ⟨blk', hblk', h1, h2, hrr⟩ := emitVV_shape he
  have hne : nm = n := mkVVRes_name_eq hnm (hq n hn) hrr
  subst hne
  rw [hs] at hblk'
  simp only [Option.some.injEq] at hblk'
  rw [← hblk'] at h1
  rw [hd] at h1
  exact Bool.true_eq_false.mp h1

/-- The stray-output filterMap is one result per flagged file. -/
lemma filterMap_stray_list :
    ∀ fs : List (String × String),
      (fs.filterMap fun f =>
        if baseName f.1.data = "outputs.tf".data then none
        else if hasTopLevelOutput f.2.data then some (mkStrayRes f.1) else none) =
      (fs.filter strayFileCond).map (fun f => mkStrayRes f.1) := by
  intro fs
  induction fs with
  | nil => rfl
  | cons f fs ih =>
    by_cases h1 : baseName f.1.data = "outputs.tf".data
    · simp [List.filterMap_cons, List.filter_cons, strayFileCond, h1, ih]
    · by_cases h2 : hasTopLevelOutput f.2.data
      · simp [List.filterMap_cons, List.filter_cons, strayFileCond, h1, h2, ih]
      · simp [List.filterMap_cons, List.filter_cons, strayFileCond, h1, h2, ih]

/-- Each per-line security result carries its line number. -/
lemma securityLineResults_line_number {rel : String} {content : List Char} {j : Nat}
    {l : List Char} {r : ValidationResult}
    (h : r ∈ securityLineResults rel content j l) : r.line_number = j := by
  unfold securityLineResults at h
  rcases List.mem_append.mp h with h1 | h1
  · by_cases hs : lineHasHardcodedSecret l
    · rw [if_pos hs] at h1
      simp at h1
      rw [h1]
      rfl
    · rw [if_neg hs] at h1
      simp at h1
  · by_cases hw : wildcardCond content l
    · rw [if_pos hw] at h1
      simp at h1
      rw [h1]
      rfl
    · rw [if_neg hw] at h1
      simp at h1

/-- Results of the tail of the scan carry line numbers at least the
starting index. -/
lemma secScan_line_ge (rel : String) (content : List Char) :
    ∀ (ls : List (List Char)) (j : Nat) (r : ValidationResult),
      r ∈ secScan rel content j ls → j ≤ r.line_number := by
  intro ls
  induction ls with
  | nil => intro j r h; simp [secScan] at h
  | cons l ls ih =>
    intro j r h
    simp only [secScan] at h
    rcases List.mem_append.mp h with h1 | h1
    · exact (securityLineResults_line_number h1) ▸ le_refl j
    · exact le_trans (Nat.le_succ j) (ih (j + 1) r h1)

/-- A wildcard result for line `i` is emitted iff the wildcard condition
holds on line `i`. -/
lemma secScan_wild_mem (rel : String) (content : List Char) :
    ∀ (ls : List (List Char)) (j i : Nat) (line : List Char),
      j ≤ i → ls.get? (i - j) = some line →
      (wildRes rel i ∈ secScan rel content j ls ↔ wildcardCond content line = true) := by
  intro ls
  induction ls with
  | nil => intro j i line _ hg; simp at hg
  | cons l ls ih =>
    intro j i line hj hg
    simp only [secScan, List.mem_append]
    cases hij : i - j with
    | zero =>
      have hie : i = j := Nat.le_antisymm (Nat.sub_eq_zero_iff_le.mp hij) hj
      subst hie
      rw [hij] at hg
      simp only [List.get?_cons_zero, Option.some.injEq] at hg
      subst hg
      constructor
      · rintro (h1 | h1)
        · unfold securityLineResults at h1
          rcases List.mem_append.mp h1 with h2 | h2
          · by_cases hs : lineHasHardcodedSecret l
            · rw [if_pos hs] at h2
              simp at h2
              exact absurd (congrArg ValidationResult.check_name h2) (by simp [wildRes, secretRes])
            · rw [if_neg hs] at h2
              simp at h2
          · by_cases hw : wildcardCond content l
            · exact hw
            · rw [if_neg hw] at h2
              simp at h2
        · have := secScan_line_ge rel content ls (i + 1) _ h1
          simp [wildRes] at this
      · intro hw
        left
        unfold securityLineResults
        refine List.mem_append.mpr (Or.inr ?_)
        rw [if_pos hw]
        exact List.mem_singleton.mpr rfl
    | succ k =>
      have hj' : j + 1 ≤ i := by omega
      have hg' : ls.get? (i - (j + 1)) = some line := by
        have hik : i - (j + 1) = k := by omega
        rw [hik]
        rw [hij] at hg
        simpa using hg
      have hhead : wildRes rel i ∉ securityLineResults rel content j l := by
        intro hc
        have := securityLineResults_line_number hc
        simp [wildRes] at this
        omega
      constructor
      · rintro (h1 | h1)
        · exact absurd h1 hhead
        · exact (ih (j + 1) i line hj' hg').mp h1
      · intro hw
        exact Or.inr ((ih (j + 1) i line hj' hg').mpr hw)

/-! ## Claim theorems -/

/-- C8: running the validation with the strict-mode flag enabled produces
exactly the same result sequence, overall outcome and exit code as running
with it disabled, for every root path and source tree (the flag is stored
but never consulted by any rule). -/
theorem strict_mode_equivalence :
    ∀ (path : String) (tree : FileTree) (pathExists : Bool),
      runAllChecks path true tree = runAllChecks path false tree ∧
      mainExit pathExists path true tree = mainExit pathExists path false tree :=
  fun _ _ _ => ⟨rfl, rfl⟩

/-- C10: after `run_all_checks` completes, normally or via the
empty-discovery short circuit, the accumulated result list is non-empty,
so the pass-rate division in `generate_report` never divides by zero. -/
theorem run_results_nonempty :
    ∀ (path : String) (strict : Bool) (tree : FileTree),
      0 < ((runAllChecks path strict tree).2).length := by
  intro path strict tree
  by_cases h : (tfFiles tree).isEmpty
  · simp [runAllChecks, h]
  · simp only [runAllChecks, h, Bool.false_eq_true, if_false, List.length_append]
    have h6 : (checkFileStructure tree).length = 6 := by
      simp [checkFileStructure, requiredFiles]
    omega

/-- C3: a root path that exists but holds no Terraform files yields
exactly one failing File Discovery result, no per-file rule output, an
overall failed run, and exit code 1 (not 2). -/
theorem empty_discovery_rule :
    ∀ (path : String) (strict : Bool) (tree : FileTree),
      tfFiles tree = [] →
      (runAllChecks path strict tree).2 =
          [⟨"File Discovery", false, "No Terraform files found in " ++ path, "", 0⟩] ∧
        (runAllChecks path strict tree).1 = false ∧
        mainExit true path strict tree = 1 := by
  intro path strict tree h
  have he : (tfFiles tree).isEmpty = true := by rw [h]; rfl
  refine ⟨?_, ?_, ?_⟩ <;> simp [runAllChecks, mainExit, he]

/-- Witness for `empty_discovery_rule` at a concrete treeless input. -/
theorem empty_discovery_rule_witness :
    (runAllChecks "proj" false treeNoTf).2 =
        [⟨"File Discovery", false, "No Terraform files found in proj", "", 0⟩] ∧
      (runAllChecks "proj" false treeNoTf).1 = false ∧
      mainExit true "proj" false treeNoTf = 1 :=
  empty_discovery_rule "proj" false treeNoTf (by decide)

/-- C9: when `variables.tf` is absent, the Variable Validation rule and
the Sensitive Variable sub-check silently emit zero results; the missing
file is reported (as failing) by the required-file presence rule. -/
theorem missing_variables_file_skip :
    ∀ tree : FileTree, existsRootFile tree "variables.tf" = false →
      checkVariableValidation tree = [] ∧ sensitiveVariableCheck tree = [] ∧
      (⟨"Required File: variables.tf", false, "Variable declarations MISSING", "", 0⟩ :
          ValidationResult) ∈ checkFileStructure tree := by
  intro tree h
  have h' : rootFileContent tree "variables.tf" = none := by
    cases hc : rootFileContent tree "variables.tf" with
    | none => rfl
    | some c => rw [existsRootFile, hc] at h; simp at h
  refine ⟨?_, ?_, ?_⟩
  · simp [checkVariableValidation, h']
  · simp [sensitiveVariableCheck, h']
  · have hv : requiredFileResult tree ("variables.tf", "Variable declarations") =
        ⟨"Required File: variables.tf", false, "Variable declarations MISSING", "", 0⟩ := by
      simp [requiredFileResult, h]
    simp only [checkFileStructure, requiredFiles, List.map_cons]
    refine List.mem_append.mpr (Or.inl ?_)
    rw [← hv]
    exact List.mem_cons_of_mem _ (List.mem_cons_self _ _)

/-- Witness for `missing_variables_file_skip` at a concrete tree. -/
theorem missing_variables_file_skip_witness :
    checkVariableValidation treeNoVars = [] ∧ sensitiveVariableCheck treeNoVars = [] ∧
      (⟨"Required File: variables.tf", false, "Variable declarations MISSING", "", 0⟩ :
          ValidationResult) ∈ checkFileStructure treeNoVars :=
  missing_variables_file_skip treeNoVars (by decide)

/-- C2: on any line, a magic-number match accompanied by the `local.`
indirection token yields no Magic Number result; a non-comment line with
exactly one pattern match in total and no indirection token yields
exactly one failing result carrying the file path and 1-based line
number. -/
theorem magic_number_line_rule :
    ∀ (rel : String) (i : Nat) (line : List Char),
      (containsSub localTok line = true → magicLineResults rel i line = []) ∧
      (isCommentLine line = false → containsSub localTok line = false →
        (magicMatchesLine line).length = 1 →
        ∃ m, magicLineResults rel i line = [⟨"Magic Number", false, m, rel, i⟩]) := by
  intro rel i line
  constructor
  · intro hl
    by_cases hc : isCommentLine line <;> simp [magicLineResults, hc, hl]
  · intro hc hl hlen
    obtain ⟨dm, hdm⟩ := List.length_eq_one.mp hlen
    exact ⟨mkMagicMsg dm.1 dm.2, by simp [magicLineResults, hc, hl, hdm]⟩

/-- Witness for `magic_number_line_rule`: a suppressed line and a flagged
line. -/
theorem magic_number_line_rule_witness :
    magicLineResults "main.tf" 3 "  port = 8080 + local.x".data = [] ∧
      ∃ m, magicLineResults "main.tf" 7 "  port = 8080".data =
        [⟨"Magic Number", false, m, "main.tf", 7⟩] :=
  ⟨(magic_number_line_rule "main.tf" 3 "  port = 8080 + local.x".data).1 (by decide),
   (magic_number_line_rule "main.tf" 7 "  port = 8080".data).2 (by decide) (by decide)
     (by decide)⟩

/-- C6: for every variable name the declaration scan of `variables.tf`
returns, with the block found by the per-name search: a block with no
default assignment and no validation keyword yields a failing Variable
Validation result for that variable, and a block with a default
assignment yields no Variable Validation result for it, regardless of
validation presence (the spec's "default value" and "validation
sub-block" are the source's lexical `default\s*=` and
`validation`-substring tests; the name is assumed free of regex
metacharacters, where the source's unescaped interpolation into the
search pattern is literal matching). -/
theorem variable_validation_rule :
    ∀ (content nm blk : List Char),
      nm ∈ findVarNames content →
      regexPlainName nm = true →
      searchVarFor nm content = some blk →
      (hasDefaultAssign blk = false → containsSub "validation".data blk = false →
        mkVVRes nm ∈ variableValidationResults content) ∧
      (hasDefaultAssign blk = true → mkVVRes nm ∉ variableValidationResults content) := by
  intro content nm blk hmem hplain hs
  constructor
  · intro h1 h2
    unfold variableValidationResults
    refine List.mem_filterMap.mpr ⟨nm, hmem, ?_⟩
    unfold emitVV
    rw [hs]
    simp [h1, h2]
  · intro hd
    exact vv_not_mem findVarNames_quote_free (findVarNames_quote_free nm hmem) hs hd

/-- Witness for `variable_validation_rule`: a required variable without
validation is flagged, a defaulted one is not. -/
theorem variable_validation_rule_witness :
    (mkVVRes "host".data ∈ variableValidationResults vvWitnessContent.data) ∧
      mkVVRes "cnt".data ∉ variableValidationResults vvWitnessContent.data :=
  ⟨(variable_validation_rule vvWitnessContent.data "host".data
      "variable \"host\" \x7b\n  type = string\n\x7d".data (by decide) (by decide)
      (by decide)).1 (by decide) (by decide),
   (variable_validation_rule vvWitnessContent.data "cnt".data
      "variable \"cnt\" \x7b\n  default = 3\n\x7d".data (by decide) (by decide)
      (by decide)).2 (by decide)⟩

/-- C1 counterexample: in `sensCexContent` the single sensitive
variable's block carries `sensitive = false` together with an unrelated
`true` (a default), and the check emits one passing result although the
block contains no true-valued sensitivity marker — so "passes iff the
block contains a true-valued sensitivity marker" fails on the code. -/
theorem sensitive_marker_counterexample :
    sensitiveVarResults sensCexContent.data =
        [⟨"Sensitive Variable", true, "Variable \"db_password\" is marked sensitive", "", 0⟩] ∧
      searchVarFor "db_password".data sensCexContent.data =
        some "variable \"db_password\" \x7b\n  sensitive = false\n  default = true\n\x7d".data ∧
      hasTrueSensitiveMarker
        "variable \"db_password\" \x7b\n  sensitive = false\n  default = true\n\x7d".data =
        false :=
  ⟨by decide, by decide, by decide⟩

/-- C1 amended: for every variable name free of regex metacharacters
(the domain where the source's unescaped interpolation into the
per-name search pattern is literal matching) occurring exactly once in
the sensitive-name scan of `variables.tf`, with the block the per-name
search finds, the check emits exactly one Sensitive Variable result for
that variable, and the result passes iff the block contains both the
substring `sensitive` and the substring `true` (the code's lexical
reading of the sensitivity marker; an actual `sensitive = true` marker
in particular makes it pass); concretely, `db_password` without the
marker yields exactly one failing Sensitive Variable result in the whole
run, and adding the marker line flips exactly that result to passing
without adding, removing or changing any other result. -/
theorem sensitive_variable_rule :
    (∀ content nm blk : List Char,
       regexPlainName nm = true →
       countOcc nm (findSensitiveNames content) = 1 →
       searchVarFor nm content = some blk →
       (sensitiveVarResults content).filter (isSensResultFor nm) =
         [mkSensRes nm (sensCond blk)]) ∧
      (runAllChecks "proj" false treeSens1).2 =
        [⟨"Required File: README.md", false, "Project documentation MISSING", "", 0⟩,
         ⟨"Required File: variables.tf", true, "Variable declarations found", "", 0⟩,
         ⟨"Required File: outputs.tf", false, "Output definitions MISSING", "", 0⟩,
         ⟨"Required File: versions.tf", false, "Provider versions (or provider.tf) MISSING", "", 0⟩,
         ⟨"Required File: .gitignore", false, "Git exclusions MISSING", "", 0⟩,
         ⟨"Constants File", false,
          "locals_constants.tf MISSING - magic numbers may be present", "", 0⟩,
         ⟨"README.md", false, "README.md not found", "", 0⟩,
         ⟨"Sensitive Variable", false, "Variable \"db_password\" NOT marked sensitive", "", 0⟩,
         ⟨"Output Organization", false, "outputs.tf not found - outputs may be scattered", "", 0⟩] ∧
      (runAllChecks "proj" false treeSens2).2 =
        [⟨"Required File: README.md", false, "Project documentation MISSING", "", 0⟩,
         ⟨"Required File: variables.tf", true, "Variable declarations found", "", 0⟩,
         ⟨"Required File: outputs.tf", false, "Output definitions MISSING", "", 0⟩,
         ⟨"Required File: versions.tf", false, "Provider versions (or provider.tf) MISSING", "", 0⟩,
         ⟨"Required File: .gitignore", false, "Git exclusions MISSING", "", 0⟩,
         ⟨"Constants File", false,
          "locals_constants.tf MISSING - magic numbers may be present", "", 0⟩,
         ⟨"README.md", false, "README.md not found", "", 0⟩,
         ⟨"Sensitive Variable", true, "Variable \"db_password\" is marked sensitive", "", 0⟩,
         ⟨"Output Organization", false, "outputs.tf not found - outputs may be scattered", "", 0⟩] := by
  refine ⟨?_, by decide, by decide⟩
  intro content nm blk hplain hcount hs
  have hmem : nm ∈ findSensitiveNames content := countOcc_pos_mem (by omega)
  have hq : ∀ n ∈ findSensitiveNames content, '"' ∉ n := findSensitiveNames_quote_free
  exact filter_sens_one (hq nm hmem) hs (findSensitiveNames content) hq hcount

/-- Witness for `sensitive_variable_rule` at the marked variant of the
`db_password` declaration. -/
theorem sensitive_variable_rule_witness :
    ((sensitiveVarResults
        "variable \"db_password\" \x7b\n  sensitive = true\n  default = \"pw\"\n\x7d\n".data).filter
      (isSensResultFor "db_password".data)) =
      [mkSensRes "db_password".data
        (sensCond "variable \"db_password\" \x7b\n  sensitive = true\n  default = \"pw\"\n\x7d".data)] :=
  sensitive_variable_rule.1
    "variable \"db_password\" \x7b\n  sensitive = true\n  default = \"pw\"\n\x7d\n".data
    "db_password".data
    "variable \"db_password\" \x7b\n  sensitive = true\n  default = \"pw\"\n\x7d".data
    (by decide) (by decide) (by decide)

/-- C4 counterexample: removing the documentation file also removes the
passing Example Configuration result and adds a failing `README.md`
documentation result, so the run changes by more than the required-file
flip and the three section results. -/
theorem readme_removal_counterexample :
    ((runAllChecks "proj" false treeDoc).2.filter
        (fun r => decide (r.check_name = "Example Configuration"))) =
        [⟨"Example Configuration", true, "terraform.tfvars.example found", "", 0⟩] ∧
      ((runAllChecks "proj" false treeDocNoReadme).2.filter
        (fun r => decide (r.check_name = "Example Configuration"))) = [] ∧
      (⟨"README.md", false, "README.md not found", "", 0⟩ : ValidationResult) ∈
        (runAllChecks "proj" false treeDocNoReadme).2 :=
  ⟨by decide, by decide, by decide⟩

/-- C4 amended: removing the documentation file from an
otherwise-compliant tree flips the required-file presence result to
failing, adds one failing `README.md` documentation result, and
suppresses the three documentation-section results and the
example-configuration result; nothing else changes. -/
theorem readme_removal_delta :
    (runAllChecks "proj" false treeDoc).2 =
        [⟨"Required File: README.md", true, "Project documentation found", "", 0⟩,
         ⟨"Required File: variables.tf", true, "Variable declarations found", "", 0⟩,
         ⟨"Required File: outputs.tf", true, "Output definitions found", "", 0⟩,
         ⟨"Required File: versions.tf", true, "Provider versions (or provider.tf) found", "", 0⟩,
         ⟨"Required File: .gitignore", true, "Git exclusions found", "", 0⟩,
         ⟨"Constants File", true, "locals_constants.tf found", "", 0⟩,
         ⟨"README: Prerequisites section", true, "Prerequisites section found", "", 0⟩,
         ⟨"README: Quick Start or Getting Started section", true,
          "Quick Start or Getting Started section found", "", 0⟩,
         ⟨"README: Configuration section", true, "Configuration section found", "", 0⟩,
         ⟨"Example Configuration", true, "terraform.tfvars.example found", "", 0⟩] ∧
      (runAllChecks "proj" false treeDocNoReadme).2 =
        [⟨"Required File: README.md", false, "Project documentation MISSING", "", 0⟩,
         ⟨"Required File: variables.tf", true, "Variable declarations found", "", 0⟩,
         ⟨"Required File: outputs.tf", true, "Output definitions found", "", 0⟩,
         ⟨"Required File: versions.tf", true, "Provider versions (or provider.tf) found", "", 0⟩,
         ⟨"Required File: .gitignore", true, "Git exclusions found", "", 0⟩,
         ⟨"Constants File", true, "locals_constants.tf found", "", 0⟩,
         ⟨"README.md", false, "README.md not found", "", 0⟩] :=
  ⟨by decide, by decide⟩

/-- C5 counterexample: a file with two stray top-level output
declarations receives a single Output Organization result, not one per
declaration. -/
theorem output_per_file_counterexample :
    (checkOutputOrganization treeOut3).length = 1 ∧
      specStrayOutputDeclCount treeOut3 = 2 :=
  ⟨by decide, by decide⟩

/-- C5 amended: when the dedicated outputs file exists, the rule flags
each *other discovered file containing at least one* stray top-level
output declaration with exactly one failing result with file
attribution; concretely, one stray declaration in another file yields
exactly one failing result referencing that file, and removing it yields
zero results. -/
theorem output_organization_rule :
    (∀ tree : FileTree, existsRootFile tree "outputs.tf" = true →
       checkOutputOrganization tree =
         ((tfFiles tree).filter strayFileCond).map (fun f => mkStrayRes f.1)) ∧
      checkOutputOrganization treeOut1 =
        [⟨"Output Organization", false, "Output found in main.tf - should be in outputs.tf",
          "main.tf", 0⟩] ∧
      checkOutputOrganization treeOut2 = [] := by
  refine ⟨?_, by decide, by decide⟩
  intro tree h
  unfold checkOutputOrganization
  rw [if_pos h]
  exact filterMap_stray_list (tfFiles tree)

/-- Witness for `output_organization_rule` at a concrete tree with a
populated outputs file. -/
theorem output_organization_rule_witness :
    checkOutputOrganization treeOut1 =
      ((tfFiles treeOut1).filter strayFileCond).map (fun f => mkStrayRes f.1) :=
  output_organization_rule.1 treeOut1 (by decide)

/-- C7 counterexample: the wildcard line text of `wildCexContent` occurs
on line 2 and again on line 4; the code anchors its look-back window at
the first occurrence and therefore flags line 4 although the 200
characters immediately preceding line 4 contain no `allow` — refuting
"flags only when the window immediately preceding that line contains
allow". -/
theorem wildcard_window_counterexample :
    wildRes "net.tf" 4 ∈ checkSecurityPerFile "net.tf" wildCexContent.data ∧
      (splitNl wildCexContent.data).get? 3 =
        some "source_address_prefix = \"*\"".data ∧
      containsSub "source_address_prefix".data "source_address_prefix = \"*\"".data = true ∧
      containsSub "\"*\"".data "source_address_prefix = \"*\"".data = true ∧
      containsSub "allow".data (lowerL (specWindowBeforeLine wildCexContent.data 4)) = false :=
  ⟨by decide, by decide, by decide, by decide, by decide⟩

/-- C7 amended: the wildcard-source check flags a line holding the
network-rule source field and the wildcard value iff the 200-character
window preceding the *first occurrence of that line's text* in the file
contains `allow` case-insensitively; an explicit deny-all rule file
produces no result. -/
theorem wildcard_window_rule :
    (∀ (rel : String) (content : List Char) (i : Nat) (line : List Char),
       1 ≤ i → (splitNl content).get? (i - 1) = some line →
       (wildRes rel i ∈ checkSecurityPerFile rel content ↔
         wildcardCond content line = true)) ∧
      checkSecurityPerFile "deny.tf" denyContent.data = [] := by
  refine ⟨?_, by decide⟩
  intro rel content i line hi hg
  exact secScan_wild_mem rel content (splitNl content) 1 i line hi hg

/-- Witness for `wildcard_window_rule` at the duplicated-line file. -/
theorem wildcard_window_rule_witness :
    (wildRes "net.tf" 4 ∈ checkSecurityPerFile "net.tf" wildCexContent.data ↔
      wildcardCond wildCexContent.data "source_address_prefix = \"*\"".data = true) :=
  wildcard_window_rule.1 "net.tf" wildCexContent.data 4
    "source_address_prefix = \"*\"".data (by decide) (by decide)
